import Mathlib

/-!
Shallow embedding of `src/romanToIntegers.py` (Lreus/python-roman-to-int).

The program parses Roman numeral strings.  `RomanNumber.__init__` runs two
regex checks (`_is_valid`: no four consecutive occurrences of any of
I,V,X,L,C,D; `_is_in_range`: no four consecutive M), then `_build_digits`
walks the reversed string building a linked chain of `RomanDigit` nodes,
each pointing at the digit to its right.  `int(RomanNumber)` evaluates the
chain recursively: each node contributes its magnitude, negated for I/X/C
when the following node is one of the two designated larger partners
(dispatched via `isinstance` against a class tuple).  `__add__` returns a
plain Python int; `__iadd__` and `__radd__` delegate to `__add__`.

Python exceptions are modelled with `Except`/`Option`: construction
returns `Except RomanError RomanNumber`; `int(self._digits)` on an empty
chain (Python `int(None)`, a `TypeError`) is modelled as `none`.
-/

namespace RomanToInt

/-- Seven Roman letters; one variant per `RomanDigit` subclass of the source. -/
inductive RomanLetter where
  | I | V | X | L | C | D | M
deriving DecidableEq, Repr

/-- Value table `RomanDigit.map` of the source. -/
def magnitude : RomanLetter → Int
  | .I => 1
  | .V => 5
  | .X => 10
  | .L => 50
  | .C => 100
  | .D => 500
  | .M => 1000

/-- Character each letter is written as (the key of `RomanDigitFactory.map`). -/
def letterChar : RomanLetter → Char
  | .I => 'I'
  | .V => 'V'
  | .X => 'X'
  | .L => 'L'
  | .C => 'C'
  | .D => 'D'
  | .M => 'M'

/-- Errors raised during construction.  `repeatedDigit` and `outOfRange` are
the two `ValueError`s of `RomanNumber.__init__`; `unknownDigit` is the
`KeyError` of `RomanDigitFactory.get_digit`, carrying the allowed-digit list
printed in its message. -/
inductive RomanError where
  | repeatedDigit
  | outOfRange
  | unknownDigit (allowed : List Char)
deriving DecidableEq, Repr

/-- Keys of `RomanDigit.map` in insertion order. -/
def allowedDigitChars : List Char := ['I', 'V', 'X', 'L', 'C', 'D', 'M']

/-- Error value produced by `RomanDigitFactory.get_digit` on an unknown char. -/
def unknownErr : RomanError := .unknownDigit allowedDigitChars

/-- Whether the character list holds four consecutive occurrences of `c` —
what `re.search` with pattern `[c]{4}` detects. -/
def hasQuad (c : Char) : List Char → Bool
  | a :: b :: d :: e :: rest =>
      (a == c && b == c && d == c && e == c) || hasQuad c (b :: d :: e :: rest)
  | _ => false

/-- Keys of `RomanDigitFactory.map` minus M: the digits with a repetition
limit (`limited_digits` in `RomanNumber._is_valid`). -/
def limitedDigits : List Char := ['I', 'V', 'X', 'L', 'C', 'D']

/-- Embedding of `RomanNumber._is_valid`: the joined alternation
`[I]{4}|[V]{4}|[X]{4}|[L]{4}|[C]{4}|[D]{4}` finds no match. -/
def is_valid (cs : List Char) : Bool :=
  ! limitedDigits.any (fun c => hasQuad c cs)

/-- Embedding of `RomanNumber._is_in_range`: pattern `[M]{4}` finds no match. -/
def is_in_range (cs : List Char) : Bool :=
  ! hasQuad 'M' cs

/-- Embedding of `RomanDigitFactory.get_digit`'s letter lookup: the dict
lookup `RomanDigitFactory.map[value]`, raising `KeyError` with the allowed
digit list on a miss. -/
def get_digit (c : Char) : Except RomanError RomanLetter :=
  if c = 'I' then .ok .I
  else if c = 'V' then .ok .V
  else if c = 'X' then .ok .X
  else if c = 'L' then .ok .L
  else if c = 'C' then .ok .C
  else if c = 'D' then .ok .D
  else if c = 'M' then .ok .M
  else .error unknownErr

/-- Loop body of `RomanNumber._build_digits`: pops characters (already
reversed) from the front, each new node pointing at the previously built
chain, so the accumulator is the chain in string order. -/
def buildLoop : List Char → List RomanLetter → Except RomanError (List RomanLetter)
  | [], acc => .ok acc
  | c :: rest, acc =>
      match get_digit c with
      | .error e => .error e
      | .ok l => buildLoop rest (l :: acc)

/-- Embedding of `RomanNumber._build_digits`: scans `reversed(value)`,
returning the digit chain in string order.  The empty chain `[]` stands for
Python `None` (empty input). -/
def build_digits (cs : List Char) : Except RomanError (List RomanLetter) :=
  buildLoop cs.reverse []

/-- Class tuple each subclass passes to `get_int_value`: `RomanDigitOne`
passes `(RomanDigitFive, RomanDigitTen)`, `RomanDigitTen` passes
`(RomanDigitFifty, RomanDigitHundred)`, `RomanDigitHundred` passes
`(RomanDigitFiveHundred, RomanDigitThousand)`, and the base class uses the
empty tuple. -/
def classTuple : RomanLetter → List RomanLetter
  | .I => [.V, .X]
  | .X => [.L, .C]
  | .C => [.D, .M]
  | _ => []

/-- Embedding of `RomanDigit.get_int_value`: negate the base value exactly
when the next node is an instance of a class in the tuple
(`isinstance(None, t)` is false, so a last node keeps its base value). -/
def get_int_value (l : RomanLetter) (next? : Option RomanLetter)
    (tup : List RomanLetter) : Int :=
  match next? with
  | some nxt => if nxt ∈ tup then -(magnitude l) else magnitude l
  | none => magnitude l

/-- Embedding of `self_int` with its per-subclass override. -/
def self_int (l : RomanLetter) (next? : Option RomanLetter) : Int :=
  get_int_value l next? (classTuple l)

/-- Embedding of `RomanDigit.__int__` on a node with the given tail:
`self_int` plus the value of the next node when it exists. -/
def evalChain : RomanLetter → List RomanLetter → Int
  | l, [] => self_int l none
  | l, r :: rs => self_int l (some r) + evalChain r rs

/-- Evaluation of a stored digit chain: `int(self._digits)`.  `none` models
the `TypeError` Python raises for `int(None)` when the chain is empty. -/
def romanToInt : List RomanLetter → Option Int
  | [] => none
  | l :: rest => some (evalChain l rest)

/-- The `RomanNumber` object after `__init__` succeeded: the original string
(`self._value`) and the built digit chain (`self._digits`, in string order;
`[]` stands for `None`). -/
structure RomanNumber where
  value : String
  digits : List RomanLetter
deriving DecidableEq, Repr

/-- Embedding of `RomanNumber.__init__`: repetition check, then range
check, then chain building; on success the object stores the chain and the
original string. -/
def construct (s : String) : Except RomanError RomanNumber :=
  if is_valid s.data = false then .error .repeatedDigit
  else if is_in_range s.data = false then .error .outOfRange
  else
    match build_digits s.data with
    | .error e => .error e
    | .ok ds => .ok ⟨s, ds⟩

/-- Embedding of `RomanNumber.__int__` (the spec's ToInteger). -/
def toInteger (r : RomanNumber) : Option Int :=
  romanToInt r.digits

/-- Embedding of `RomanNumber.__repr__`. -/
def reprString (r : RomanNumber) : String :=
  "RomanNumber('" ++ r.value ++ "')"

/-- The spec's Render: the original validated string held by the object. -/
def render (r : RomanNumber) : String :=
  r.value

/-- Right operand of `__add__`: a Python int, another `RomanNumber`, or any
object of a different type. -/
inductive Operand where
  | int (n : Int)
  | roman (r : RomanNumber)
  | other
deriving Repr

/-- Result value of an addition: a plain integer or (never produced by this
code, kept to state that fact) a `RomanNumber`. -/
inductive AddResult where
  | int (n : Int)
  | roman (r : RomanNumber)
deriving DecidableEq, Repr

/-- Failures of `__add__`: the explicit `TypeError` for unsupported
operands, or the `TypeError` from `int(None)` on an empty chain. -/
inductive AddError where
  | unsupportedOperand
  | evalFailed
deriving DecidableEq, Repr

/-- Embedding of `RomanNumber.__add__`: ints add to `int(self)`; another
`RomanNumber` adds the two integer values; anything else raises
`TypeError`.  Both successful branches build a plain Python int. -/
def addOp (r : RomanNumber) (o : Operand) : Except AddError AddResult :=
  match o with
  | .int n =>
      match toInteger r with
      | some v => .ok (.int (v + n))
      | none => .error .evalFailed
  | .roman b =>
      match toInteger r with
      | some v =>
          match toInteger b with
          | some w => .ok (.int (v + w))
          | none => .error .evalFailed
      | none => .error .evalFailed
  | .other => .error .unsupportedOperand

/-- Embedding of `RomanNumber.__radd__`, which delegates to `__add__`. -/
def raddOp (r : RomanNumber) (o : Operand) : Except AddError AddResult :=
  addOp r o

/-- Embedding of `RomanNumber.__iadd__`, which delegates to `__add__` and so
returns a plain int; the object itself is never mutated. -/
def iaddOp (r : RomanNumber) (o : Operand) : Except AddError AddResult :=
  addOp r o

/-- Modelled from the spec (for comparison with the code's dispatch): the
designated larger partners of the three subtractive-capable letters,
I→{V,X}, X→{L,C}, C→{D,M}; V, L, D, M have none. -/
def largerPartners : RomanLetter → List RomanLetter
  | .I => [.V, .X]
  | .X => [.L, .C]
  | .C => [.D, .M]
  | _ => []

/-- Modelled from the spec: a letter's contribution is its magnitude,
negated exactly when the immediately following letter is one of its
designated larger partners. -/
def specLetterValue (l : RomanLetter) (next? : Option RomanLetter) : Int :=
  match next? with
  | some nxt => if nxt ∈ largerPartners l then -(magnitude l) else magnitude l
  | none => magnitude l

/-- Each letter of the list paired with its immediate successor (none for
the last letter). -/
def succPairs : List RomanLetter → List (RomanLetter × Option RomanLetter)
  | [] => []
  | [l] => [(l, none)]
  | l :: r :: rest => (l, some r) :: succPairs (r :: rest)

/-- Modelled from the spec: the sum over the letters of each letter's
(possibly negated) contribution. -/
def specSum (ls : List RomanLetter) : Int :=
  ((succPairs ls).map (fun p => specLetterValue p.1 p.2)).sum

theorem get_digit_ok_char {c : Char} {l : RomanLetter}
    (h : get_digit c = .ok l) : letterChar l = c := by
  unfold get_digit at h
  split_ifs at h <;> (cases h; simp_all [letterChar])

theorem get_digit_error_eq {c : Char} {e : RomanError}
    (h : get_digit c = .error e) : e = unknownErr := by
  unfold get_digit at h
  split_ifs at h
  cases h
  rfl

theorem get_digit_of_mem {c : Char} (h : c ∈ allowedDigitChars) :
    ∃ l, get_digit c = .ok l := by
  simp only [allowedDigitChars, List.mem_cons, List.not_mem_nil, or_false] at h
  rcases h with rfl | rfl | rfl | rfl | rfl | rfl | rfl <;> exact ⟨_, rfl⟩

theorem get_digit_of_not_mem {c : Char} (h : c ∉ allowedDigitChars) :
    get_digit c = .error unknownErr := by
  simp only [allowedDigitChars, List.mem_cons, List.not_mem_nil, or_false, not_or] at h
  unfold get_digit
  split_ifs <;> simp_all

theorem buildLoop_ok_chars :
    ∀ (cs : List Char) (acc ds : List RomanLetter),
      buildLoop cs acc = .ok ds → ds.map letterChar = cs.reverse ++ acc.map letterChar := by
  intro cs
  induction cs with
  | nil => intro acc ds h; simp only [buildLoop] at h; cases h; simp
  | cons c rest ih =>
      intro acc ds h
      simp only [buildLoop] at h
      cases hg : get_digit c with
      | error e => rw [hg] at h; cases h
      | ok l =>
          rw [hg] at h
          have := ih (l :: acc) ds h
          simp only [List.map_cons] at this
          rw [this, get_digit_ok_char hg]
          simp

theorem buildLoop_error_eq :
    ∀ (cs : List Char) (acc : List RomanLetter) (e : RomanError),
      buildLoop cs acc = .error e → e = unknownErr := by
  intro cs
  induction cs with
  | nil => intro acc e h; simp [buildLoop] at h
  | cons c rest ih =>
      intro acc e h
      simp only [buildLoop] at h
      cases hg : get_digit c with
      | error e2 =>
          rw [hg] at h
          cases h
          exact get_digit_error_eq hg
      | ok l => rw [hg] at h; exact ih (l :: acc) e h

theorem buildLoop_bad_char :
    ∀ (cs : List Char) (acc : List RomanLetter) (c : Char),
      c ∈ cs → c ∉ allowedDigitChars → buildLoop cs acc = .error unknownErr := by
  intro cs
  induction cs with
  | nil => intro acc c h; cases h
  | cons a rest ih =>
      intro acc c hmem hbad
      simp only [buildLoop]
      rcases List.mem_cons.mp hmem with h | h
      · subst h; rw [get_digit_of_not_mem hbad]
      · cases hg : get_digit a with
        | error e =>
            have he := get_digit_error_eq hg
            subst he
            rfl
        | ok l => exact ih (l :: acc) c h hbad

theorem construct_ok_parts {s : String} {r : RomanNumber}
    (h : construct s = .ok r) :
    r.value = s ∧ build_digits s.data = .ok r.digits ∧
      is_valid s.data = true ∧ is_in_range s.data = true := by
  unfold construct at h
  by_cases hv : is_valid s.data = false
  · rw [if_pos hv] at h; cases h
  · rw [if_neg hv] at h
    by_cases hr : is_in_range s.data = false
    · rw [if_pos hr] at h; cases h
    · rw [if_neg hr] at h
      cases hb : build_digits s.data with
      | error e => rw [hb] at h; cases h
      | ok ds =>
          rw [hb] at h
          cases h
          refine ⟨rfl, rfl, ?_, ?_⟩
          · revert hv; cases is_valid s.data <;> simp
          · revert hr; cases is_in_range s.data <;> simp

theorem construct_ok_chars {s : String} {r : RomanNumber}
    (h : construct s = .ok r) : r.digits.map letterChar = s.data := by
  have h2 := (construct_ok_parts h).2.1
  unfold build_digits at h2
  have := buildLoop_ok_chars s.data.reverse [] r.digits h2
  simpa using this

theorem construct_digits_length {s : String} {r : RomanNumber}
    (h : construct s = .ok r) : r.digits.length = s.data.length := by
  have := construct_ok_chars h
  calc r.digits.length = (r.digits.map letterChar).length := (List.length_map _ _).symm
    _ = s.data.length := by rw [this]

theorem data_ne_nil {s : String} (h : s ≠ "") : s.data ≠ [] := by
  intro hd
  apply h
  cases s with
  | mk d => cases hd; rfl

theorem self_int_eq_specLetterValue (l : RomanLetter) (next? : Option RomanLetter) :
    self_int l next? = specLetterValue l next? := by
  cases l <;> cases next? <;> rfl

theorem evalChain_eq_specSum : ∀ (rest : List RomanLetter) (l : RomanLetter),
    evalChain l rest = specSum (l :: rest) := by
  intro rest
  induction rest with
  | nil =>
      intro l
      simp [evalChain, specSum, succPairs, self_int_eq_specLetterValue]
  | cons r rs ih =>
      intro l
      simp only [evalChain, specSum, succPairs, List.map_cons, List.sum_cons,
        self_int_eq_specLetterValue]
      have := ih r
      simp only [specSum] at this
      rw [this]

theorem magnitude_le_evalChain : ∀ (rest : List RomanLetter) (l : RomanLetter),
    magnitude l ≤ evalChain l rest := by
  intro rest
  induction rest with
  | nil => intro l; cases l <;> simp [evalChain, self_int, get_int_value, classTuple, magnitude]
  | cons r rs ih =>
      intro l
      have hr := ih r
      show magnitude l ≤ self_int l (some r) + evalChain r rs
      cases l <;> cases r <;>
        simp_all [self_int, get_int_value, classTuple, magnitude] <;> omega

theorem is_valid_eq_false_iff (cs : List Char) :
    is_valid cs = false ↔ ∃ c ∈ limitedDigits, hasQuad c cs = true := by
  simp [is_valid, List.any_eq_true]

theorem is_valid_eq_true_of (cs : List Char)
    (h : ∀ c ∈ limitedDigits, hasQuad c cs = false) : is_valid cs = true := by
  simp only [is_valid, Bool.not_eq_true']
  rw [List.any_eq_false]
  intro c hc
  simp [h c hc]

theorem construct_repeated_iff (s : String) :
    construct s = .error .repeatedDigit ↔ is_valid s.data = false := by
  constructor
  · intro h
    by_cases hv : is_valid s.data = false
    · exact hv
    · exfalso
      rw [construct, if_neg hv] at h
      by_cases hr : is_in_range s.data = false
      · rw [if_pos hr] at h
        exact absurd h (by simp)
      · rw [if_neg hr] at h
        cases hb : build_digits s.data with
        | error e =>
            rw [hb] at h
            have he : e = unknownErr := buildLoop_error_eq _ _ _ hb
            subst he
            simp [unknownErr] at h
        | ok ds =>
            rw [hb] at h
            exact absurd h (by simp)
  · intro hv
    rw [construct, if_pos hv]

/-- Claim C1: for every non-empty string accepted by construction, ToInteger
returns the sum over the string's letters of each letter's magnitude, where
the magnitude of I, X, or C is negated exactly when the immediately
following letter is one of its designated larger partners (I→{V,X},
X→{L,C}, C→{D,M}), and V, L, D, M always contribute their full positive
magnitude.  `specSum` is the spec-side signed sum; the stored digit chain
spells the input string letter for letter. -/
theorem C1_eval_is_signed_sum (s : String) (r : RomanNumber)
    (hc : construct s = .ok r) (hs : s ≠ "") :
    r.digits.map letterChar = s.data ∧ toInteger r = some (specSum r.digits) := by
  refine ⟨construct_ok_chars hc, ?_⟩
  have hne : r.digits ≠ [] := by
    intro hnil
    apply data_ne_nil hs
    have hlen := construct_digits_length hc
    rw [hnil] at hlen
    exact List.length_eq_zero.mp hlen.symm
  cases hd : r.digits with
  | nil => exact absurd hd hne
  | cons l rest =>
      simp only [toInteger, hd, romanToInt]
      rw [evalChain_eq_specSum]

/-- Claim C1 witness: the spec example CCXLIV, value 244. -/
theorem C1_eval_is_signed_sum_wit :
    (RomanNumber.mk "CCXLIV" [.C, .C, .X, .L, .I, .V]).digits.map letterChar
        = "CCXLIV".data ∧
      toInteger (RomanNumber.mk "CCXLIV" [.C, .C, .X, .L, .I, .V])
        = some (specSum (RomanNumber.mk "CCXLIV" [.C, .C, .X, .L, .I, .V]).digits) :=
  C1_eval_is_signed_sum "CCXLIV" (RomanNumber.mk "CCXLIV" [.C, .C, .X, .L, .I, .V])
    rfl (by decide)

/-- Claim C2 (refuted — code bug): the validator does not actually enforce a
3999 ceiling: the non-canonical string MMMDD has no four consecutive equal
letters, so construction accepts it, and ToInteger returns 4000, although
the code's own error message asserts the class cannot handle numbers
greater than 3999. -/
theorem C2_ceiling_violation :
    construct "MMMDD" = .ok (RomanNumber.mk "MMMDD" [.M, .M, .M, .D, .D]) ∧
      toInteger (RomanNumber.mk "MMMDD" [.M, .M, .M, .D, .D]) = some 4000 :=
  ⟨rfl, rfl⟩

/-- Claim C3 counterexample: construction succeeds on the empty string, yet
ToInteger on the result fails (Python `int(None)` raises `TypeError`,
modelled as `none`), and so does Add with a plain integer. -/
theorem C3_counterexample :
    construct "" = .ok (RomanNumber.mk "" []) ∧
      toInteger (RomanNumber.mk "" []) = none ∧
      addOp (RomanNumber.mk "" []) (.int 5) = .error .evalFailed :=
  ⟨rfl, rfl, rfl⟩

/-- Claim C3 (amended): for every NON-EMPTY string on which construction
succeeds, ToInteger does not fail, and Add with a valid operand (a plain
integer, or a numeral constructed from a non-empty string) does not fail. -/
theorem C3_amended_no_failure (s : String) (r : RomanNumber)
    (hc : construct s = .ok r) (hs : s ≠ "") :
    (∃ v, toInteger r = some v) ∧
      (∀ n : Int, ∃ v, addOp r (.int n) = .ok (.int v)) ∧
      (∀ (t : String) (b : RomanNumber), construct t = .ok b → t ≠ "" →
        ∃ v, addOp r (.roman b) = .ok (.int v)) := by
  have hne : r.digits ≠ [] := by
    intro hnil
    apply data_ne_nil hs
    have := construct_digits_length hc
    rw [hnil] at this
    exact List.length_eq_zero.mp this.symm
  obtain ⟨l, rest, hd⟩ : ∃ l rest, r.digits = l :: rest := by
    cases hd : r.digits with
    | nil => exact absurd hd hne
    | cons l rest => exact ⟨l, rest, rfl⟩
  have hv : toInteger r = some (evalChain l rest) := by
    simp [toInteger, hd, romanToInt]
  refine ⟨⟨_, hv⟩, ?_, ?_⟩
  · intro n
    exact ⟨evalChain l rest + n, by simp [addOp, hv]⟩
  · intro t b hcb htb
    have hneb : b.digits ≠ [] := by
      intro hnil
      apply data_ne_nil htb
      have := construct_digits_length hcb
      rw [hnil] at this
      exact List.length_eq_zero.mp this.symm
    obtain ⟨lb, restb, hdb⟩ : ∃ lb restb, b.digits = lb :: restb := by
      cases hdb : b.digits with
      | nil => exact absurd hdb hneb
      | cons lb restb => exact ⟨lb, restb, rfl⟩
    have hvb : toInteger b = some (evalChain lb restb) := by
      simp [toInteger, hdb, romanToInt]
    exact ⟨evalChain l rest + evalChain lb restb, by simp [addOp, hv, hvb]⟩

/-- Claim C3 (amended) witness at the input I. -/
theorem C3_amended_no_failure_wit :
    (∃ v, toInteger (RomanNumber.mk "I" [.I]) = some v) ∧
      (∀ n : Int, ∃ v, addOp (RomanNumber.mk "I" [.I]) (.int n) = .ok (.int v)) ∧
      (∀ (t : String) (b : RomanNumber), construct t = .ok b → t ≠ "" →
        ∃ v, addOp (RomanNumber.mk "I" [.I]) (.roman b) = .ok (.int v)) :=
  C3_amended_no_failure "I" (RomanNumber.mk "I" [.I]) rfl (by decide)

/-- Claim C4: construction fails with the repeated-digit error exactly when
the input holds four or more consecutive occurrences of one of the six
Roman letters other than M (the `limitedDigits` I, V, X, L, C, D); in
particular a run of M's alone never triggers this error, since M is not in
that list. -/
theorem C4_repeated_digit_iff (s : String) :
    construct s = .error .repeatedDigit ↔
      ∃ c ∈ limitedDigits, hasQuad c s.data = true := by
  rw [construct_repeated_iff, is_valid_eq_false_iff]

/-- Claim C5 counterexample: IIIIMMMM holds four consecutive M's, yet
construction fails with the repeated-digit error (the repetition check runs
first), not the out-of-range error. -/
theorem C5_counterexample :
    hasQuad 'M' "IIIIMMMM".data = true ∧
      construct "IIIIMMMM" ≠ .error .outOfRange := by
  refine ⟨by decide, ?_⟩
  intro h
  rw [show construct "IIIIMMMM" = .error .repeatedDigit from rfl] at h
  simp at h

/-- Claim C5 (amended): an input with four or more consecutive M's fails
with the out-of-range error PROVIDED no other letter of the limited set
I, V, X, L, C, D has four consecutive occurrences (otherwise the earlier
repetition check fires first). -/
theorem C5_amended_out_of_range (s : String)
    (hM : hasQuad 'M' s.data = true)
    (hok : ∀ c ∈ limitedDigits, hasQuad c s.data = false) :
    construct s = .error .outOfRange := by
  have hv : is_valid s.data = true := is_valid_eq_true_of s.data hok
  rw [construct, if_neg (by simp [hv]), if_pos (by simp [is_in_range, hM])]

/-- Claim C5 (amended) witness at the input MMMM. -/
theorem C5_amended_out_of_range_wit :
    hasQuad 'M' "MMMM".data = true ∧ construct "MMMM" = .error .outOfRange :=
  ⟨by decide, C5_amended_out_of_range "MMMM" (by decide) (by decide)⟩

/-- Claim C6 counterexample: IIIIZ holds the foreign character Z, yet
construction fails with the repeated-digit error (the repetition check runs
before any character lookup), not the unknown-digit error. -/
theorem C6_counterexample :
    ('Z' ∈ "IIIIZ".data ∧ 'Z' ∉ allowedDigitChars) ∧
      ∀ a, construct "IIIIZ" ≠ .error (.unknownDigit a) := by
  refine ⟨by decide, ?_⟩
  intro a h
  rw [show construct "IIIIZ" = .error .repeatedDigit from rfl] at h
  simp at h

/-- Claim C6 (amended): an input holding a character outside
{I,V,X,L,C,D,M} fails with the unknown-digit error listing those seven
digits PROVIDED no single letter of the alphabet has four consecutive
occurrences (otherwise the repetition or range check fires first). -/
theorem C6_amended_unknown_digit (s : String)
    (hq : ∀ c ∈ allowedDigitChars, hasQuad c s.data = false)
    (hbad : ∃ c ∈ s.data, c ∉ allowedDigitChars) :
    construct s = .error (.unknownDigit ['I', 'V', 'X', 'L', 'C', 'D', 'M']) := by
  have hv : is_valid s.data = true := by
    apply is_valid_eq_true_of
    intro c hc
    apply hq
    simp only [limitedDigits, List.mem_cons, List.not_mem_nil, or_false] at hc
    simp only [allowedDigitChars, List.mem_cons, List.not_mem_nil, or_false]
    tauto
  have hr : is_in_range s.data = true := by
    simp only [is_in_range, Bool.not_eq_true']
    exact hq 'M' (by simp [allowedDigitChars])
  rw [construct, if_neg (by simp [hv]), if_neg (by simp [hr])]
  obtain ⟨c, hmem, hbadc⟩ := hbad
  have : build_digits s.data = .error unknownErr := by
    unfold build_digits
    exact buildLoop_bad_char s.data.reverse [] c (by simpa using hmem) hbadc
  rw [this]
  rfl

/-- Claim C6 (amended) witness at the input Z. -/
theorem C6_amended_unknown_digit_wit :
    ('Z' ∈ "Z".data ∧ 'Z' ∉ allowedDigitChars) ∧
      construct "Z" = .error (.unknownDigit ['I', 'V', 'X', 'L', 'C', 'D', 'M']) :=
  ⟨by decide,
    C6_amended_unknown_digit "Z" (by decide) ⟨'Z', by decide, by decide⟩⟩

/-- Claim C7: Add of a constructed numeral with a plain integer returns the
plain integer sum of its value and the integer, and Add with another
constructed numeral returns the plain integer sum of the two values; both
results are `AddResult.int`, never `AddResult.roman`. -/
theorem C7_add_returns_plain_sum (s t : String) (a b : RomanNumber)
    (va vb n : Int)
    (_ha : construct s = .ok a) (_hb : construct t = .ok b)
    (hva : toInteger a = some va) (hvb : toInteger b = some vb) :
    addOp a (.int n) = .ok (.int (va + n)) ∧
      addOp a (.roman b) = .ok (.int (va + vb)) := by
  constructor <;> simp [addOp, hva, hvb]

/-- Claim C7 witness: the spec example MMCCLXIII (2263) and CCXLIV (244)
adding to 2507, and 2263 + 5 = 2268. -/
theorem C7_add_returns_plain_sum_wit :
    addOp (RomanNumber.mk "MMCCLXIII" [.M, .M, .C, .C, .L, .X, .I, .I, .I])
        (.int 5) = .ok (.int (2263 + 5)) ∧
      addOp (RomanNumber.mk "MMCCLXIII" [.M, .M, .C, .C, .L, .X, .I, .I, .I])
        (.roman (RomanNumber.mk "CCXLIV" [.C, .C, .X, .L, .I, .V]))
        = .ok (.int (2263 + 244)) :=
  C7_add_returns_plain_sum "MMCCLXIII" "CCXLIV"
    (RomanNumber.mk "MMCCLXIII" [.M, .M, .C, .C, .L, .X, .I, .I, .I])
    (RomanNumber.mk "CCXLIV" [.C, .C, .X, .L, .I, .V])
    2263 244 5 rfl rfl rfl rfl

/-- Claim C8: rendering a numeral constructed from a validated string
returns exactly that string — the original input is stored verbatim, with
no canonicalization. -/
theorem C8_render_roundtrip (s : String) (r : RomanNumber)
    (hc : construct s = .ok r) : render r = s :=
  (construct_ok_parts hc).1

/-- Claim C8 witness at IIX, a non-canonical but pattern-valid form,
preserved verbatim. -/
theorem C8_render_roundtrip_wit :
    render (RomanNumber.mk "IIX" [.I, .I, .X]) = "IIX" :=
  C8_render_roundtrip "IIX" (RomanNumber.mk "IIX" [.I, .I, .X]) rfl

/-- Claim C9: every numeral constructed from a non-empty string evaluates
to a non-negative integer: the chain value is bounded below by the head
letter's magnitude, because each sign-flipped letter is immediately
followed by a strictly larger partner. -/
theorem C9_value_nonneg (s : String) (r : RomanNumber)
    (hc : construct s = .ok r) (hs : s ≠ "") :
    ∃ v, toInteger r = some v ∧ 0 ≤ v := by
  have hne : r.digits ≠ [] := by
    intro hnil
    apply data_ne_nil hs
    have := construct_digits_length hc
    rw [hnil] at this
    exact List.length_eq_zero.mp this.symm
  cases hd : r.digits with
  | nil => exact absurd hd hne
  | cons l rest =>
      refine ⟨evalChain l rest, by simp [toInteger, hd, romanToInt], ?_⟩
      have h1 := magnitude_le_evalChain rest l
      have h2 : (0 : Int) < magnitude l := by cases l <;> simp [magnitude]
      omega

/-- Claim C9 witness at IV (value 4). -/
theorem C9_value_nonneg_wit :
    ∃ v, toInteger (RomanNumber.mk "IV" [.I, .V]) = some v ∧ 0 ≤ v :=
  C9_value_nonneg "IV" (RomanNumber.mk "IV" [.I, .V]) rfl (by decide)

/-- Claim C10: reversed addition with a plain integer delegates to `__add__`
and returns the same plain integer sum, in-place addition produces the same
plain integer result, and the numeral itself is left unchanged — its stored
string and integer value are those it was constructed with (the model is
pure; `__iadd__` returns a fresh int and never mutates the object). -/
theorem C10_radd_iadd (s : String) (r : RomanNumber) (v n : Int)
    (hc : construct s = .ok r) (hv : toInteger r = some v) :
    raddOp r (.int n) = .ok (.int (v + n)) ∧
      raddOp r (.int n) = addOp r (.int n) ∧
      iaddOp r (.int n) = .ok (.int (v + n)) ∧
      render r = s ∧ toInteger r = some v := by
  refine ⟨by simp [raddOp, addOp, hv], rfl, by simp [iaddOp, addOp, hv],
    (construct_ok_parts hc).1, hv⟩

/-- Claim C10 witness at X (value 10) with n = 7. -/
theorem C10_radd_iadd_wit :
    raddOp (RomanNumber.mk "X" [.X]) (.int 7) = .ok (.int (10 + 7)) ∧
      raddOp (RomanNumber.mk "X" [.X]) (.int 7)
        = addOp (RomanNumber.mk "X" [.X]) (.int 7) ∧
      iaddOp (RomanNumber.mk "X" [.X]) (.int 7) = .ok (.int (10 + 7)) ∧
      render (RomanNumber.mk "X" [.X]) = "X" ∧
      toInteger (RomanNumber.mk "X" [.X]) = some 10 :=
  C10_radd_iadd "X" (RomanNumber.mk "X" [.X]) 10 7 rfl rfl

end RomanToInt
